import Mathlib

/-!
# Gingoduino core — verification of the spec's claims against the source

Shallow embedding of the gingoduino harmonic-inference core:

* `GingoMIDI1Parser::feed` / `GingoMIDI1::dispatch` (src/GingoMIDI1.h) — the
  legacy byte-stream parser and the stateless dispatcher;
* `GingoMIDI2::dispatch` (src/GingoMIDI2.h) — the packet-protocol dispatcher;
* `GingoMonitor` (src/GingoMonitor.cpp) — the stateful harmonic monitor;
* `GingoChordComparison::compute` (src/GingoChordComparison.cpp) — the pairwise
  chord comparator.

The pitch→name, chord-naming and key-deduction functions are external oracles
(out of the core's scope, per the spec) and are modelled as parameters.
Machine integers are modelled as `Nat`/`Int`; all the arithmetic below stays
far from the 8/16/32-bit overflow boundaries of the original types, except
where an explicit bound (`% 12`, `&&& 0xFFF`, a `< 2 ^ 32` hypothesis) keeps
the match exact.
-/

namespace Gingoduino

/-! ## Dispatcher intents

`GingoMIDI1::dispatch` and `GingoMIDI2::dispatch` classify a message into one
of the monitor's entry points. `DEv` records which entry point is invoked and
with which arguments; `none` models an unhandled message (dispatch returning
`false` without touching the monitor). -/

inductive DEv where
  | noteOn (note vel : Nat)
  | noteOff (note : Nat)
  | sustainOn
  | sustainOff
  | reset
deriving DecidableEq

/-- `GingoMIDI1::dispatch` (src/GingoMIDI1.h, lines 73-98): Note On with
velocity 0 is routed as a Note Off; CC 64 sets sustain by `value >= 64`;
CC 123 resets. The channel nibble is masked off. -/
def midi1Dispatch (status data1 data2 : Nat) : Option DEv :=
  let t := status &&& 0xF0
  if t = 0x90 then
    if data2 > 0 then some (DEv.noteOn data1 data2) else some (DEv.noteOff data1)
  else if t = 0x80 then some (DEv.noteOff data1)
  else if t = 0xB0 then
    if data1 = 64 then some (if data2 ≥ 64 then DEv.sustainOn else DEv.sustainOff)
    else if data1 = 123 then some DEv.reset
    else none
  else none

/-! ## The byte-stream parser (`GingoMIDI1Parser`) -/

/-- The 4 bytes of parser state (src/GingoMIDI1.h, lines 118-123). -/
structure ParserState where
  status : Nat
  data1 : Nat
  count : Nat
  inSysex : Bool
deriving DecidableEq

/-- The constructor / `reset()` state. -/
def ParserState.start : ParserState := ⟨0, 0, 0, false⟩

/-- `GingoMIDI1Parser::dataLength_` (src/GingoMIDI1.h, lines 189-203). -/
def dataLength (status : Nat) : Nat :=
  match status &&& 0xF0 with
  | 0x80 | 0x90 | 0xA0 | 0xB0 | 0xE0 => 2
  | 0xC0 | 0xD0 => 1
  | _ => 2

/-- `GingoMIDI1Parser::feed` (src/GingoMIDI1.h, lines 142-184). The second
component is the complete `(status, data1, data2)` message this byte hands to
`GingoMIDI1::dispatch`, when there is one. -/
def feed (s : ParserState) (b : Nat) : ParserState × Option (Nat × Nat × Nat) :=
  if b ≥ 0xF8 then (s, none)
  else if b = 0xF7 then ({ s with inSysex := false }, none)
  else if b = 0xF0 then ({ s with inSysex := true, count := 0 }, none)
  else if s.inSysex then (s, none)
  else if b ≥ 0xF1 then ({ s with status := 0, count := 0 }, none)
  else if b &&& 0x80 ≠ 0 then ({ s with status := b, count := 0 }, none)
  else if s.status = 0 then (s, none)
  else if s.count = 0 then
    if dataLength s.status = 1 then (s, some (s.status, b, 0))
    else ({ s with data1 := b, count := 1 }, none)
  else ({ s with count := 0 }, some (s.status, s.data1, b))

/-- Feed a whole byte list, collecting the monitor intents produced by
`GingoMIDI1::dispatch` for each completed message (in order). -/
def feedAll (s : ParserState) : List Nat → ParserState × List DEv
  | [] => (s, [])
  | b :: rest =>
    let step := feed s b
    let evs := match step.2 with
      | some m => (midi1Dispatch m.1 m.2.1 m.2.2).toList
      | none => []
    let next := feedAll step.1 rest
    (next.1, evs ++ next.2)

/-! ## The packet-protocol dispatcher (`GingoMIDI2::dispatch`) -/

/-- `GingoMIDI2::dispatch` (src/GingoMIDI2.h, lines 229-273) on the first two
words of a UMP packet. `w1` is only read for the MT=0x4 (2-word native)
layout. The result is the monitor intent the dispatch routes, `none` for an
unhandled packet. -/
def midi2Dispatch (w0 w1 : Nat) : Option DEv :=
  let mt := (w0 >>> 28) &&& 0xF
  if mt = 0x2 then
    let opcode := (w0 >>> 20) &&& 0xF
    let data1 := (w0 >>> 8) &&& 0x7F
    let data2 := w0 &&& 0x7F
    if opcode = 0x9 ∧ data2 > 0 then some (DEv.noteOn data1 data2)
    else if opcode = 0x8 ∨ (opcode = 0x9 ∧ data2 = 0) then some (DEv.noteOff data1)
    else if opcode = 0xB then
      if data1 = 64 then some (if data2 ≥ 64 then DEv.sustainOn else DEv.sustainOff)
      else if data1 = 123 then some DEv.reset
      else none
    else none
  else if mt = 0x4 then
    let opcode := (w0 >>> 20) &&& 0xF
    let index := (w0 >>> 8) &&& 0x7F
    if opcode = 0x9 ∨ opcode = 0x8 then
      let vel16 := (w1 >>> 16) &&& 0xFFFF
      let vel7 := vel16 >>> 9
      if opcode = 0x9 ∧ vel16 > 0 then some (DEv.noteOn index vel7)
      else some (DEv.noteOff index)
    else if opcode = 0xB then
      if index = 64 then
        some (if w1 ≥ 0x80000000 then DEv.sustainOn else DEv.sustainOff)
      else if index = 123 then some DEv.reset
      else none
    else none
  else none

/-! ## The harmonic monitor (`GingoMonitor`)

The chord-naming oracle (`GingoChord::identify`, reached through
`buildChordFromHeld_`) and the key-deduction oracle (`GingoField::deduce`,
reached through `deduceFieldFromHeld_`) are outside the core (spec §1); the
monitor only consumes them. They are modelled as two arbitrary functions of
the held MIDI note numbers: `identify` yields the chord name on success, and
`deduce` yields the top-ranked `(tonic semitone, scale parent)` pair — the two
projections `analyse_` compares (`tonic().semitone()` and `scale().parent()`),
with the fuzzy ranking folded into the oracle. -/

structure Oracles where
  identify : List Nat → Option String
  deduce : List Nat → Option (Nat × Nat)

/-- `GingoMonitor`'s observable state: `held` is `held_[0..heldCount_)` paired
with its `sustained_` flag (insertion order preserved); the chord and field
slots hold the data `analyse_` compares on the next call (the name for the
chord; tonic semitone and scale parent for the field; the default-constructed
values are modelled as `""` and `(0, 0)` — they are only ever compared after
a successful re-identification set them). -/
structure MonState where
  held : List (Nat × Bool)
  sustainHeld : Bool
  chordValid : Bool
  chordName : String
  fieldValid : Bool
  fieldTonic : Nat
  fieldParent : Nat
deriving DecidableEq

/-- The constructor state (src/GingoMonitor.cpp, lines 18-28). -/
def MonState.start : MonState := ⟨[], false, false, "", false, 0, 0⟩

/-- A fired callback: chord-changed (with the new name), field-changed (with
the new tonic and parent), or the per-note callback. -/
inductive MonEv where
  | chord (name : String)
  | field (tonic parent : Nat)
  | note (pitch : Nat)
deriving DecidableEq

/-- `GingoMonitor::buildChordFromHeld_` (src/GingoMonitor.cpp, lines 96-108):
`none` with fewer than 2 held notes, otherwise the naming oracle's answer. -/
def buildChordFromHeld (oc : Oracles) (held : List (Nat × Bool)) : Option String :=
  if held.length < 2 then none else oc.identify (held.map Prod.fst)

/-- `GingoMonitor::deduceFieldFromHeld_` (src/GingoMonitor.cpp, lines 114-135):
`none` with no held note, otherwise the deduction oracle's top candidate. -/
def deduceFieldFromHeld (oc : Oracles) (held : List (Nat × Bool)) :
    Option (Nat × Nat) :=
  if held.length < 1 then none else oc.deduce (held.map Prod.fst)

/-- The chord block of `GingoMonitor::analyse_` (src/GingoMonitor.cpp, lines
142-155): `chordChanged` is validity flipping, or both-valid with a different
name; on change the chord slot and validity are overwritten and the
chord-changed callback fires only when the new chord is valid. -/
def chordStep (oc : Oracles) (s : MonState) : MonState × List MonEv :=
  let newChord := buildChordFromHeld oc s.held
  if newChord.isSome ≠ s.chordValid
      ∨ (newChord.isSome = true ∧ s.chordValid = true
          ∧ newChord.getD "" ≠ s.chordName) then
    ({ s with chordName := newChord.getD "", chordValid := newChord.isSome },
     if newChord.isSome then [MonEv.chord (newChord.getD "")] else [])
  else (s, [])

/-- The field block of `GingoMonitor::analyse_` (src/GingoMonitor.cpp, lines
158-175), entered only while the chord is valid: `fieldChanged` is validity
flipping, or both-valid with a different tonic semitone or scale parent; on
change the field slot and validity are overwritten and the field-changed
callback fires only when the new field is valid. -/
def fieldStep (oc : Oracles) (s : MonState) : MonState × List MonEv :=
  let newField := deduceFieldFromHeld oc s.held
  if newField.isSome ≠ s.fieldValid
      ∨ (newField.isSome = true ∧ s.fieldValid = true
          ∧ ((newField.getD (0, 0)).1 ≠ s.fieldTonic
              ∨ (newField.getD (0, 0)).2 ≠ s.fieldParent)) then
    ({ s with fieldValid := newField.isSome,
              fieldTonic := (newField.getD (0, 0)).1,
              fieldParent := (newField.getD (0, 0)).2 },
     if newField.isSome then
       [MonEv.field (newField.getD (0, 0)).1 (newField.getD (0, 0)).2] else [])
  else (s, [])

/-- `GingoMonitor::analyse_` (src/GingoMonitor.cpp, lines 141-179): the chord
block, then — only while the chord is valid — the field block; when the chord
is invalid a still-valid field is silently invalidated (lines 176-178). -/
def analyse (oc : Oracles) (s : MonState) : MonState × List MonEv :=
  let c := chordStep oc s
  if c.1.chordValid then
    let f := fieldStep oc c.1
    (f.1, c.2 ++ f.2)
  else if c.1.fieldValid then ({ c.1 with fieldValid := false }, c.2)
  else (c.1, c.2)

/-- The un-sustain loop in `GingoMonitor::noteOn` (src/GingoMonitor.cpp, lines
196-198): clear the sustained flag of the first entry holding this pitch. -/
def unsustainFirst (p : Nat) : List (Nat × Bool) → List (Nat × Bool)
  | [] => []
  | e :: t => if e.1 = p then (e.1, false) :: t else e :: unsustainFirst p t

/-- The mark loop in `GingoMonitor::noteOff` (src/GingoMonitor.cpp, lines
224-226): set the sustained flag of the first entry holding this pitch. -/
def markSustainedFirst (p : Nat) : List (Nat × Bool) → List (Nat × Bool)
  | [] => []
  | e :: t => if e.1 = p then (e.1, true) :: t else e :: markSustainedFirst p t

/-- `GingoMonitor::MAX_HELD` (src/GingoMonitor.h, line 176). -/
def MAX_HELD : Nat := 16

/-- `GingoMonitor::noteOn` (src/GingoMonitor.cpp, lines 185-219): velocity is
ignored; an already-held pitch only fires the per-note callback; a new pitch
runs the (unreachable-for-new-pitches) un-sustain loop, is appended when under
capacity, and triggers `analyse_`; the per-note callback fires last,
unconditionally. -/
def noteOn (oc : Oracles) (p v : Nat) (s : MonState) : MonState × List MonEv :=
  if p ∈ s.held.map Prod.fst then (s, [MonEv.note p])
  else
    let held1 := unsustainFirst p s.held
    let held2 := if held1.length < MAX_HELD then held1 ++ [(p, false)] else held1
    let a := analyse oc { s with held := held2 }
    (a.1, a.2 ++ [MonEv.note p])

/-- `GingoMonitor::noteOff` (src/GingoMonitor.cpp, lines 221-241): with the
sustain latch held, mark the pitch sustained and return (no removal, no
re-analysis); otherwise remove every entry holding the pitch and re-analyse. -/
def noteOff (oc : Oracles) (p : Nat) (s : MonState) : MonState × List MonEv :=
  if s.sustainHeld then
    ({ s with held := markSustainedFirst p s.held }, [])
  else
    analyse oc { s with held := s.held.filter (fun e => decide (e.1 ≠ p)) }

/-- `GingoMonitor::sustainOn` (src/GingoMonitor.cpp, lines 243-245). -/
def sustainOn (s : MonState) : MonState := { s with sustainHeld := true }

/-- `GingoMonitor::sustainOff` (src/GingoMonitor.cpp, lines 247-261): clear
the latch, drop every sustained entry (the kept entries' flags are rewritten
to `false`, which they already are), and re-analyse. -/
def sustainOff (oc : Oracles) (s : MonState) : MonState × List MonEv :=
  let held1 := (s.held.filter (fun e => decide (e.2 = false))).map (fun e => (e.1, false))
  analyse oc { s with sustainHeld := false, held := held1 }

/-- `GingoMonitor::reset` (src/GingoMonitor.cpp, lines 263-269): clears the
held set, both validity flags and the latch; fires nothing. (The chord/field
data slots are not cleared in the source either.) -/
def monReset (s : MonState) : MonState :=
  { s with held := [], chordValid := false, fieldValid := false, sustainHeld := false }

/-- One monitor intent, as routed by the dispatchers. -/
inductive MOp where
  | activate (p v : Nat)
  | release (p : Nat)
  | sustOn
  | sustOff
  | clearAll

/-- The state after one intent (callbacks dropped). -/
def applyOp (oc : Oracles) (s : MonState) : MOp → MonState
  | .activate p v => (noteOn oc p v s).1
  | .release p => (noteOff oc p s).1
  | .sustOn => sustainOn s
  | .sustOff => (sustainOff oc s).1
  | .clearAll => monReset s

/-- The state after a sequence of intents. -/
def runOps (oc : Oracles) (s : MonState) : List MOp → MonState
  | [] => s
  | op :: rest => runOps oc (applyOp oc s op) rest

/-- A monitor state reachable from the constructor state by some sequence of
activate/release/sustain/clear intents. -/
def Reachable (oc : Oracles) (s : MonState) : Prop :=
  ∃ ops : List MOp, runOps oc MonState.start ops = s

/-- Pitch-set well-formedness: no duplicate pitch numbers, at most
`MAX_HELD = 16` entries. -/
def GoodHeld (l : List (Nat × Bool)) : Prop :=
  (l.map Prod.fst).Nodup ∧ l.length ≤ MAX_HELD

/-- The monitor state of spec §8's sustain scenario right after the sustain
pedal goes down: activate 60, 64, 67, then `sustainOn`. -/
def sustainScene (oc : Oracles) : MonState :=
  sustainOn (runOps oc MonState.start
    [MOp.activate 60 100, MOp.activate 64 100, MOp.activate 67 100])

/-! ## The chord comparator (`GingoChordComparison`)

`GingoChord` itself is an external collaborator (chord naming is out of the
core's scope); the comparator only reads its member notes' semitones
(`notes()[i].semitone()`), the root semitone (`root().semitone()`), the
quality string (`type()`) and the note count (`size()`), so a chord is
modelled as exactly those observations. -/

structure GChord where
  notes : List Nat
  rootSemi : Nat
  type : String
deriving DecidableEq

/-- `GingoChord::size()` — the number of member notes. -/
def GChord.size (c : GChord) : Nat := c.notes.length

/-- The member notes' pitch classes, `semitone() % 12`, in chord order. -/
def GChord.pcs (c : GChord) : List Nat := c.notes.map (fun n => n % 12)

/-- `pcMaskFromChord_` (src/GingoChordComparison.cpp, lines 20-28): OR of
`1 << (semitone % 12)` over the member notes. -/
def pcMask (c : GChord) : Nat :=
  c.pcs.foldl (fun m p => m ||| (1 <<< p)) 0

/-- `intervalMaskFromChord_` (src/GingoChordComparison.cpp, lines 32-42):
OR of `1 << ((pc - root_pc + 12) % 12)` over the member notes. -/
def intervalMask (c : GChord) : Nat :=
  c.pcs.foldl (fun m p => m ||| (1 <<< ((p + 12 - c.rootSemi % 12) % 12))) 0

/-- `popcount12_` (src/GingoChordComparison.cpp, lines 45-50): the loop counts
the set low bit of `mask &&& 0xFFF` while shifting right, i.e. it sums bits
0..11. -/
def popcount12 (mask : Nat) : Nat :=
  (List.range 12).foldl (fun cnt i => cnt + (((mask &&& 0xFFF) >>> i) &&& 1)) 0

/-- `chromaticDist_` (src/GingoChordComparison.cpp, lines 53-56): shortest arc
on the 12-semitone circle. (Callers pass values `< 12`, so the `Nat`
subtraction `b + 12 - a` matches the C arithmetic.) -/
def chromaticDist (a b : Nat) : Nat :=
  let d := (b + 12 - a) % 12
  if d > 6 then 12 - d else d

/-- `rotatePc_` (src/GingoChordComparison.cpp, lines 60-69): bit `i` moves to
bit `(i + n) % 12`. -/
def rotatePc (mask n : Nat) : Nat :=
  let m := n % 12
  (List.range 12).foldl
    (fun r i => if mask &&& (1 <<< i) ≠ 0 then r ||| (1 <<< ((i + m) % 12)) else r) 0

/-- The transposition loop of `GingoChordComparison::compute` (lines 272-278):
the first `n` in 0..11 with `rotatePc_(maskA, n) == maskB`, else `-1`. -/
def transpositionIndex (maskA maskB : Nat) : Int :=
  match (List.range 12).find? (fun n => rotatePc maskA n == maskB) with
  | some n => (n : Int)
  | none => -1

/-- `computeIntervalVector_` (src/GingoChordComparison.cpp, lines 74-85): a
6-bucket histogram over the pairs of set bits `i < j`, bucketed by interval
class `min(d, 12 - d)`. -/
def intervalVector (mask : Nat) : List Nat :=
  (List.range 12).foldl (fun iv i =>
    if mask &&& (1 <<< i) ≠ 0 then
      (List.range 12).foldl (fun iv2 j =>
        if i < j ∧ mask &&& (1 <<< j) ≠ 0 then
          let d := j - i
          let ic := if d > 6 then 12 - d else d
          if 0 < ic ∧ ic ≤ 6 then iv2.set (ic - 1) (iv2.getD (ic - 1) 0 + 1)
          else iv2
        else iv2) iv
    else iv) [0, 0, 0, 0, 0, 0]

/-- The per-pairing cost of `computeVoiceLeading_`'s inner loop: the sum of
shortest-arc distances over the index-wise pairing of two pitch-class lists. -/
def vlSum (pa pb : List Nat) : Nat :=
  ((pa.zip pb).map (fun q => chromaticDist q.1 q.2)).sum

/-- `computeVoiceLeading_` (src/GingoChordComparison.cpp, lines 117-150): `-1`
when the sizes differ or are zero; otherwise `pcB` is insertion-sorted
(`sortU8_`) and the loop walks its distinct arrangements in lexicographic
order via `nextPerm_`, folding the minimum cost from the start value 127 (with
an early exit at 0). The fold below takes the same minimum over every
arrangement of the sorted `pcB`: the minimum of the visited cost set is
unchanged by enumeration order, by repeated arrangements, or by the early
exit, and `nextPerm_` visits every arrangement of the multiset. -/
def computeVoiceLeading (a b : GChord) : Int :=
  if a.size ≠ b.size ∨ a.size = 0 then -1
  else
    ((List.insertionSort (fun x y => x ≤ y) b.pcs).permutations.map
      (fun l => (vlSum a.pcs l : Int))).foldl min 127

/-- The `NeoRiemannianTransform` enum (src/GingoChordComparison.h). -/
inductive Neo where
  | NONE | P | L | R | RP | RL | LP | LR | PR | PL
deriving DecidableEq

/-- `isTriad_` (src/GingoChordComparison.cpp, lines 157-163): `some isMajor`
for a 3-note chord of type `"M"` or `"m"`, else `none`. -/
def isTriad (c : GChord) : Option Bool :=
  if c.size ≠ 3 then none
  else if c.type = "M" then some true
  else if c.type = "m" then some false
  else none

/-- `applyNeoStep_` (src/GingoChordComparison.cpp, lines 168-183) on a
`(root, isMajor)` pair; operations other than P/L/R leave it unchanged. -/
def applyNeoStep (rm : Nat × Bool) (op : Neo) : Nat × Bool :=
  match op with
  | .P => (rm.1, !rm.2)
  | .L => if rm.2 then ((rm.1 + 4) % 12, false) else ((rm.1 + 8) % 12, true)
  | .R => if rm.2 then ((rm.1 + 9) % 12, false) else ((rm.1 + 3) % 12, true)
  | _ => rm

/-- `detectNeoRiemannian_` (src/GingoChordComparison.cpp, lines 187-220): the
3 single steps P, L, R in order, then the 6 two-step compositions in the fixed
table order RP, RL, LP, LR, PR, PL; first match wins, else `NONE`; non-triads
give `NONE`. -/
def detectNeo (a b : GChord) : Neo :=
  match isTriad a, isTriad b with
  | some aM, some bM =>
    let s0 : Nat × Bool := (a.rootSemi % 12, aM)
    let t0 : Nat × Bool := (b.rootSemi % 12, bM)
    match [Neo.P, Neo.L, Neo.R].find? (fun op => decide (applyNeoStep s0 op = t0)) with
    | some op => op
    | none =>
      match ([(Neo.R, Neo.P, Neo.RP), (Neo.R, Neo.L, Neo.RL),
              (Neo.L, Neo.P, Neo.LP), (Neo.L, Neo.R, Neo.LR),
              (Neo.P, Neo.R, Neo.PR), (Neo.P, Neo.L, Neo.PL)].find?
          (fun t => decide (applyNeoStep (applyNeoStep s0 t.1) t.2.1 = t0))) with
      | some t => t.2.2
      | none => Neo.NONE
  | _, _ => Neo.NONE

/-- The `ChordSubsetRelation` enum (src/GingoChordComparison.h). -/
inductive SubsetRel where
  | NONE | AInB | BInA | EQUAL
deriving DecidableEq

/-- The `GingoChordComparison` result bundle (src/GingoChordComparison.h). -/
structure Comparison where
  common_pc : Nat
  exclusive_a_pc : Nat
  exclusive_b_pc : Nat
  common_count : Nat
  root_distance : Nat
  root_direction : Int
  same_quality : Bool
  same_size : Bool
  common_interval_mask : Nat
  enharmonic : Bool
  subset : SubsetRel
  inversion : Bool
  transposition : Int
  voice_leading : Int
  transformation : Neo
  interval_vector_a : List Nat
  interval_vector_b : List Nat
  same_interval_vector : Bool
deriving DecidableEq

/-- `GingoChordComparison::compute` (src/GingoChordComparison.cpp, lines
226-293). The uint16 complement `pcA & ~pcB` is `pcA &&& (0xFFF ^^^ pcB)`
here since both masks only carry bits 0..11. -/
def compute (a b : GChord) : Comparison :=
  let pcA := pcMask a
  let pcB := pcMask b
  let ra := a.rootSemi % 12
  let rb := b.rootSemi % 12
  let diff0 : Int := (rb : Int) - (ra : Int)
  let diff1 : Int := if diff0 > 6 then diff0 - 12 else diff0
  let diff : Int := if diff1 < -6 then diff1 + 12 else diff1
  let iva := intervalVector pcA
  let ivb := intervalVector pcB
  { common_pc := pcA &&& pcB
    exclusive_a_pc := pcA &&& (0xFFF ^^^ pcB)
    exclusive_b_pc := pcB &&& (0xFFF ^^^ pcA)
    common_count := popcount12 (pcA &&& pcB)
    root_distance := diff.natAbs
    root_direction := diff
    same_quality := a.type == b.type
    same_size := a.size == b.size
    common_interval_mask := intervalMask a &&& intervalMask b
    enharmonic := pcA == pcB
    subset := if pcA = pcB then SubsetRel.EQUAL
      else if pcA &&& pcB = pcA then SubsetRel.AInB
      else if pcA &&& pcB = pcB then SubsetRel.BInA
      else SubsetRel.NONE
    inversion := pcA == pcB && ra != rb
    transposition := transpositionIndex pcA pcB
    voice_leading := computeVoiceLeading a b
    transformation := detectNeo a b
    interval_vector_a := iva
    interval_vector_b := ivb
    same_interval_vector := iva == ivb }

/-! ### C8: root geometry -/

/-- A C-major-shaped chord rooted on F-sharp/G-flat (pitch class 6). -/
def gbChord : GChord := ⟨[6, 10, 1], 6, "M"⟩

/-- A C major chord (root pitch class 0). -/
def cChord : GChord := ⟨[0, 4, 7], 0, "M"⟩

/-- An A-minor chord shaped like `cChord` (pitch classes 9, 0, 4). -/
def amChord : GChord := ⟨[9, 0, 4], 9, "m"⟩

/-! ### C6: the neo-Riemannian transformation tag -/

/-- Modelled from the spec: the three primitive operations on
`(root, isMajor)` — Parallel toggles majority; Leading-tone sends a major
root `r` to a minor chord at `r + 4` and a minor root `r` to a major chord at
`r + 8`; Relative sends a major root to minor at `r + 9` and a minor root to
major at `r + 3`, all mod 12 — tried as the 3 single steps P, L, R and then
the 6 two-step compositions in the fixed order RP, RL, LP, LR, PR, PL; the
first operation mapping A to B wins, none of the 9 gives "none", and any
chord that is not a pure major/minor triad gives "none". -/
def specTransformationTag (a b : GChord) : Neo :=
  match isTriad a, isTriad b with
  | some aM, some bM =>
    let specP : Nat × Bool → Nat × Bool := fun q => (q.1, !q.2)
    let specL : Nat × Bool → Nat × Bool := fun q =>
      if q.2 then ((q.1 + 4) % 12, false) else ((q.1 + 8) % 12, true)
    let specR : Nat × Bool → Nat × Bool := fun q =>
      if q.2 then ((q.1 + 9) % 12, false) else ((q.1 + 3) % 12, true)
    let s0 : Nat × Bool := (a.rootSemi % 12, aM)
    let t0 : Nat × Bool := (b.rootSemi % 12, bM)
    if specP s0 = t0 then Neo.P
    else if specL s0 = t0 then Neo.L
    else if specR s0 = t0 then Neo.R
    else if specP (specR s0) = t0 then Neo.RP
    else if specL (specR s0) = t0 then Neo.RL
    else if specP (specL s0) = t0 then Neo.LP
    else if specR (specL s0) = t0 then Neo.LR
    else if specR (specP s0) = t0 then Neo.PR
    else if specL (specP s0) = t0 then Neo.PL
    else Neo.NONE
  | _, _ => Neo.NONE

/-- C4: from the initial parser state, the byte sequence
`[0x90, 60, 100, 64, 100, 67, 100]` dispatches exactly the three Note-On
events `(60,100)`, `(64,100)`, `(67,100)`, in that order; the second and
third messages are completed under running status (the final state still
holds status byte `0x90`). -/
theorem c4_running_status_dispatch :
    feedAll ParserState.start [0x90, 60, 100, 64, 100, 67, 100] =
      ({ status := 0x90, data1 := 67, count := 0, inSysex := false },
       [DEv.noteOn 60 100, DEv.noteOn 64 100, DEv.noteOn 67 100]) := by
  decide

/-- C9 counterexample: for the 2-word native (MT=4) controller-123 analogue the
code resets the monitor no matter what word 1 holds — the action is identical
for a value with the high bit clear (`0`) and one with it set (`0x80000000`),
so the controller-123 analogue does not decide its action by testing the high
bit of the 32-bit value, contrary to the claim. Word 0 `0x40B07B00` decodes as
MT=4, opcode=0xB, index=123. -/
theorem c9_cc123_ignores_value_counterexample :
    midi2Dispatch 0x40B07B00 0 = some DEv.reset ∧
      midi2Dispatch 0x40B07B00 0x80000000 = some DEv.reset ∧
      Nat.testBit 0 31 ≠ Nat.testBit 0x80000000 31 := by
  decide

/-- C9 (amended): for MT=4 native 2-word packets, a Note-On with nonzero
16-bit velocity routes `noteOn` for the indexed note with the velocity's top
7 bits (`vel16 >>> 9`) as legacy velocity; a Note-On with zero 16-bit velocity
routes a release; the controller-64 analogue decides sustain on/off by the
high bit (bit 31) of the 32-bit value in word 1; the controller-123 analogue
resets unconditionally, ignoring word 1 entirely. -/
theorem c9_midi2_native_dispatch (w0 w1 : Nat) (hw1 : w1 < 2 ^ 32)
    (hmt : (w0 >>> 28) &&& 0xF = 0x4) :
    ((w0 >>> 20) &&& 0xF = 0x9 → (w1 >>> 16) &&& 0xFFFF ≠ 0 →
      midi2Dispatch w0 w1 =
        some (DEv.noteOn ((w0 >>> 8) &&& 0x7F) (((w1 >>> 16) &&& 0xFFFF) >>> 9))) ∧
    ((w0 >>> 20) &&& 0xF = 0x9 → (w1 >>> 16) &&& 0xFFFF = 0 →
      midi2Dispatch w0 w1 = some (DEv.noteOff ((w0 >>> 8) &&& 0x7F))) ∧
    ((w0 >>> 20) &&& 0xF = 0xB → (w0 >>> 8) &&& 0x7F = 64 →
      midi2Dispatch w0 w1 =
        some (if w1.testBit 31 then DEv.sustainOn else DEv.sustainOff)) ∧
    ((w0 >>> 20) &&& 0xF = 0xB → (w0 >>> 8) &&& 0x7F = 123 →
      ∀ v : Nat, midi2Dispatch w0 v = some DEv.reset) := by
  have hbit : w1.testBit 31 = true ↔ 0x80000000 ≤ w1 := by
    rw [Nat.testBit_to_div_mod]
    have h31 : 2 ^ 31 = 0x80000000 := by norm_num
    have h32 : (2 : Nat) ^ 32 = 0x100000000 := by norm_num
    rw [h31] at *
    constructor
    · intro h
      have := of_decide_eq_true h
      omega
    · intro h
      apply decide_eq_true
      omega
  have hne : (0x4 : Nat) ≠ 0x2 := by norm_num
  refine ⟨?_, ?_, ?_, ?_⟩
  · intro hop hv
    simp only [midi2Dispatch, hmt, hop]
    norm_num
    try omega
  · intro hop hv
    simp only [midi2Dispatch, hmt, hop, hv]
    norm_num
  · intro hop hidx
    simp only [midi2Dispatch, hmt, hop, hidx]
    norm_num
    rcases h : w1.testBit 31 with _ | _
    · have : ¬ (0x80000000 ≤ w1) := fun hc => by
        rw [← hbit] at hc
        simp [hc] at h
      simp [this]
    · have := hbit.mp h
      simp [this]
      try omega
  · intro hop hidx v
    simp only [midi2Dispatch, hmt, hop, hidx]
    norm_num

/-- C9 witness: the amended theorem at word 0 `0x40903C00` (MT=4, opcode 9,
index 60) and word 1 `0x92340000` (16-bit velocity `0x9234`, top 7 bits 73). -/
theorem c9_midi2_native_dispatch_witness :
    midi2Dispatch 0x40903C00 0x92340000 = some (DEv.noteOn 60 73) := by
  have h := (c9_midi2_native_dispatch 0x40903C00 0x92340000 (by decide) (by decide)).1
    (by decide) (by decide)
  exact h.trans (by decide)

/-! ### Frame lemmas: `analyse_` never touches the held set or the latch -/

theorem chordStep_held (oc : Oracles) (s : MonState) :
    (chordStep oc s).1.held = s.held := by
  unfold chordStep
  dsimp only
  split <;> rfl

theorem chordStep_sustainHeld (oc : Oracles) (s : MonState) :
    (chordStep oc s).1.sustainHeld = s.sustainHeld := by
  unfold chordStep
  dsimp only
  split <;> rfl

theorem fieldStep_held (oc : Oracles) (s : MonState) :
    (fieldStep oc s).1.held = s.held := by
  unfold fieldStep
  dsimp only
  split <;> rfl

theorem fieldStep_sustainHeld (oc : Oracles) (s : MonState) :
    (fieldStep oc s).1.sustainHeld = s.sustainHeld := by
  unfold fieldStep
  dsimp only
  split <;> rfl

theorem analyse_held (oc : Oracles) (s : MonState) :
    (analyse oc s).1.held = s.held := by
  unfold analyse
  dsimp only
  split
  · rw [fieldStep_held, chordStep_held]
  · split <;> simp [chordStep_held]

theorem analyse_sustainHeld (oc : Oracles) (s : MonState) :
    (analyse oc s).1.sustainHeld = s.sustainHeld := by
  unfold analyse
  dsimp only
  split
  · rw [fieldStep_sustainHeld, chordStep_sustainHeld]
  · split <;> simp [chordStep_sustainHeld]

/-! ### C1: which callbacks a re-evaluation fires -/

theorem fieldStep_events (oc : Oracles) (s : MonState) :
    ∀ e ∈ (fieldStep oc s).2, ∃ t p, e = MonEv.field t p := by
  unfold fieldStep
  dsimp only
  split
  · split
    · intro e he
      rcases List.mem_singleton.mp he with rfl
      exact ⟨_, _, rfl⟩
    · intro e he
      cases he
  · intro e he
    cases he

theorem chord_mem_analyse (oc : Oracles) (s : MonState) (nm : String) :
    MonEv.chord nm ∈ (analyse oc s).2 ↔ MonEv.chord nm ∈ (chordStep oc s).2 := by
  unfold analyse
  dsimp only
  split
  · rw [List.mem_append]
    constructor
    · rintro (h | h)
      · exact h
      · rcases fieldStep_events oc _ _ h with ⟨t, p, hq⟩
        exact absurd hq (by simp)
    · exact Or.inl
  · split <;> exact Iff.rfl

theorem chord_mem_chordStep (oc : Oracles) (s : MonState) (nm : String) :
    MonEv.chord nm ∈ (chordStep oc s).2 ↔
      (buildChordFromHeld oc s.held = some nm ∧
        (s.chordValid = false ∨ nm ≠ s.chordName)) := by
  unfold chordStep
  dsimp only
  rcases h : buildChordFromHeld oc s.held with _ | nm'
  · rcases hv : s.chordValid <;> simp [h, hv]
  · rcases hv : s.chordValid <;>
      by_cases hn : nm' = s.chordName <;>
        simp [h, hv, hn, eq_comm, and_comm] <;>
        (intro hq; subst hq; exact hn)

/-- C1: in any re-evaluation (`analyse_`, reached from every operation that
triggers one), the chord-changed callback fires iff the chord is newly valid,
or stays valid under a different name (the fired name being the new one); and
on a valid→invalid transition no callback at all fires while field validity is
forced to false. -/
theorem c1_reevaluation_callbacks (oc : Oracles) (s : MonState) :
    ((∃ nm, MonEv.chord nm ∈ (analyse oc s).2) ↔
      (∃ nm, buildChordFromHeld oc s.held = some nm ∧
        (s.chordValid = false ∨ nm ≠ s.chordName))) ∧
    (s.chordValid = true → buildChordFromHeld oc s.held = none →
      (analyse oc s).2 = [] ∧ (analyse oc s).1.fieldValid = false) := by
  constructor
  · constructor
    · rintro ⟨nm, hm⟩
      exact ⟨nm, (chord_mem_chordStep oc s nm).mp ((chord_mem_analyse oc s nm).mp hm)⟩
    · rintro ⟨nm, hm⟩
      exact ⟨nm, (chord_mem_analyse oc s nm).mpr ((chord_mem_chordStep oc s nm).mpr hm)⟩
  · intro hv hnone
    have hcs : chordStep oc s =
        ({ s with chordName := "", chordValid := false }, []) := by
      unfold chordStep
      dsimp only
      rw [hnone]
      simp [hv]
    unfold analyse
    rw [hcs]
    dsimp only
    split
    · simp_all
    · split <;> simp_all

/-! ### C2: the active-pitch set holds no duplicates and at most 16 entries -/

theorem unsustainFirst_map_fst (p : Nat) :
    ∀ l : List (Nat × Bool), (unsustainFirst p l).map Prod.fst = l.map Prod.fst := by
  intro l
  induction l with
  | nil => rfl
  | cons e t ih =>
    unfold unsustainFirst
    split <;> simp_all

theorem markSustainedFirst_map_fst (p : Nat) :
    ∀ l : List (Nat × Bool), (markSustainedFirst p l).map Prod.fst = l.map Prod.fst := by
  intro l
  induction l with
  | nil => rfl
  | cons e t ih =>
    unfold markSustainedFirst
    split <;> simp_all

theorem unsustainFirst_not_mem (p : Nat) :
    ∀ l : List (Nat × Bool), p ∉ l.map Prod.fst → unsustainFirst p l = l := by
  intro l
  induction l with
  | nil => intro _; rfl
  | cons e t ih =>
    intro h
    unfold unsustainFirst
    rw [List.map_cons, List.mem_cons] at h
    push_neg at h
    rw [if_neg (fun hq => h.1 hq.symm), ih h.2]

theorem goodHeld_filter (l : List (Nat × Bool)) (q : Nat × Bool → Bool)
    (h : GoodHeld l) : GoodHeld (l.filter q) := by
  refine ⟨?_, le_trans (List.length_filter_le q l) h.2⟩
  exact h.1.sublist (List.Sublist.map Prod.fst (List.filter_sublist l))

theorem analyse_goodHeld (oc : Oracles) (s : MonState)
    (h : GoodHeld s.held) : GoodHeld (analyse oc s).1.held := by
  rw [analyse_held]
  exact h

theorem applyOp_goodHeld (oc : Oracles) (s : MonState) (op : MOp)
    (h : GoodHeld s.held) : GoodHeld (applyOp oc s op).held := by
  cases op with
  | activate p v =>
    show GoodHeld (noteOn oc p v s).1.held
    unfold noteOn
    split
    · exact h
    · rename_i hnew
      rw [analyse_held]
      dsimp only
      split
      · rename_i hlen
        constructor
        · rw [List.map_append, unsustainFirst_map_fst]
          rw [List.nodup_append]
          refine ⟨h.1, List.nodup_singleton p, ?_⟩
          intro a ha hb
          simp only [List.map_cons, List.map_nil, List.mem_singleton] at hb
          subst hb
          exact hnew ha
        · rw [List.length_append]
          have hlu : (unsustainFirst p s.held).length = s.held.length := by
            have := congrArg List.length (unsustainFirst_map_fst p s.held)
            simpa using this
          rw [hlu] at hlen ⊢
          simp only [MAX_HELD] at hlen ⊢
          simp only [List.length_cons, List.length_nil]
          omega
      · constructor
        · rw [unsustainFirst_map_fst]
          exact h.1
        · have hlu : (unsustainFirst p s.held).length = s.held.length := by
            have := congrArg List.length (unsustainFirst_map_fst p s.held)
            simpa using this
          have h2 := h.2
          simp only [MAX_HELD] at h2 ⊢
          omega
  | release p =>
    show GoodHeld (noteOff oc p s).1.held
    unfold noteOff
    split
    · refine ⟨by rw [markSustainedFirst_map_fst]; exact h.1, ?_⟩
      show (markSustainedFirst p s.held).length ≤ MAX_HELD
      have hlm : (markSustainedFirst p s.held).length = s.held.length := by
        have := congrArg List.length (markSustainedFirst_map_fst p s.held)
        simpa using this
      have h2 := h.2
      simp only [MAX_HELD] at h2 ⊢
      omega
    · rw [analyse_held]
      exact goodHeld_filter _ _ h
  | sustOn => exact h
  | sustOff =>
    show GoodHeld (sustainOff oc s).1.held
    unfold sustainOff
    rw [analyse_held]
    dsimp only
    have hf := goodHeld_filter s.held (fun e => decide (e.2 = false)) h
    constructor
    · have : ((s.held.filter (fun e => decide (e.2 = false))).map
          (fun e => (e.1, false))).map Prod.fst =
          (s.held.filter (fun e => decide (e.2 = false))).map Prod.fst := by
        rw [List.map_map]
        rfl
      rw [this]
      exact hf.1
    · rw [List.length_map]
      exact hf.2
  | clearAll =>
    show GoodHeld (monReset s).held
    exact ⟨List.nodup_nil, by simp [monReset, MAX_HELD]⟩

theorem runOps_goodHeld (oc : Oracles) (ops : List MOp) :
    ∀ s : MonState, GoodHeld s.held → GoodHeld (runOps oc s ops).held := by
  induction ops with
  | nil => intro s h; exact h
  | cons op rest ih =>
    intro s h
    exact ih _ (applyOp_goodHeld oc s op h)

theorem reachable_goodHeld (oc : Oracles) (s : MonState)
    (h : Reachable oc s) : GoodHeld s.held := by
  rcases h with ⟨ops, rfl⟩
  exact runOps_goodHeld oc ops MonState.start ⟨List.nodup_nil, by decide⟩

/-- C2: in every reachable monitor state the active-pitch set has no duplicate
pitch and at most 16 entries; activating an already-active pitch leaves the
set's size unchanged, and activating a 17th distinct pitch leaves the set
itself unchanged. -/
theorem c2_active_set_invariant (oc : Oracles) (s : MonState) (p v : Nat)
    (h : Reachable oc s) :
    (s.held.map Prod.fst).Nodup ∧ s.held.length ≤ 16 ∧
      (p ∈ s.held.map Prod.fst →
        (noteOn oc p v s).1.held.length = s.held.length) ∧
      (s.held.length = 16 → p ∉ s.held.map Prod.fst →
        (noteOn oc p v s).1.held = s.held) := by
  have hg := reachable_goodHeld oc s h
  refine ⟨hg.1, hg.2, ?_, ?_⟩
  · intro hmem
    rw [noteOn, if_pos hmem]
  · intro hlen hmem
    rw [noteOn, if_neg hmem]
    dsimp only
    rw [analyse_held]
    dsimp only
    rw [unsustainFirst_not_mem p s.held hmem]
    rw [if_neg (by simp only [MAX_HELD]; omega)]

/-- C2 witness: the invariant applied to the state reached by activating 60
and 64 under an oracle pair that never recognises anything. -/
theorem c2_active_set_invariant_witness :
    ((runOps ⟨fun _ => none, fun _ => none⟩ MonState.start
        [MOp.activate 60 100, MOp.activate 64 100]).held.map Prod.fst).Nodup ∧
      (runOps ⟨fun _ => none, fun _ => none⟩ MonState.start
        [MOp.activate 60 100, MOp.activate 64 100]).held.length ≤ 16 ∧
      (64 ∈ (runOps ⟨fun _ => none, fun _ => none⟩ MonState.start
          [MOp.activate 60 100, MOp.activate 64 100]).held.map Prod.fst →
        (noteOn ⟨fun _ => none, fun _ => none⟩ 64 100
          (runOps ⟨fun _ => none, fun _ => none⟩ MonState.start
            [MOp.activate 60 100, MOp.activate 64 100])).1.held.length =
        (runOps ⟨fun _ => none, fun _ => none⟩ MonState.start
          [MOp.activate 60 100, MOp.activate 64 100]).held.length) ∧
      ((runOps ⟨fun _ => none, fun _ => none⟩ MonState.start
          [MOp.activate 60 100, MOp.activate 64 100]).held.length = 16 →
        64 ∉ (runOps ⟨fun _ => none, fun _ => none⟩ MonState.start
          [MOp.activate 60 100, MOp.activate 64 100]).held.map Prod.fst →
        (noteOn ⟨fun _ => none, fun _ => none⟩ 64 100
          (runOps ⟨fun _ => none, fun _ => none⟩ MonState.start
            [MOp.activate 60 100, MOp.activate 64 100])).1.held =
        (runOps ⟨fun _ => none, fun _ => none⟩ MonState.start
          [MOp.activate 60 100, MOp.activate 64 100]).held) :=
  c2_active_set_invariant ⟨fun _ => none, fun _ => none⟩
    (runOps ⟨fun _ => none, fun _ => none⟩ MonState.start
      [MOp.activate 60 100, MOp.activate 64 100]) 64 100
    ⟨[MOp.activate 60 100, MOp.activate 64 100], rfl⟩

/-! ### C3: the sustain trace, and C10: re-activating a sustained pitch -/

theorem noteOn_held_new (oc : Oracles) (p v : Nat) (s : MonState)
    (h1 : p ∉ s.held.map Prod.fst) (h2 : s.held.length < MAX_HELD) :
    (noteOn oc p v s).1.held = s.held ++ [(p, false)] := by
  rw [noteOn, if_neg h1]
  dsimp only
  rw [analyse_held]
  dsimp only
  rw [unsustainFirst_not_mem p s.held h1]
  rw [if_pos h2]

theorem noteOn_sustainHeld (oc : Oracles) (p v : Nat) (s : MonState) :
    (noteOn oc p v s).1.sustainHeld = s.sustainHeld := by
  unfold noteOn
  split
  · rfl
  · dsimp only
    rw [analyse_sustainHeld]

theorem runOps_nil (oc : Oracles) (s : MonState) : runOps oc s [] = s := rfl

theorem runOps_cons (oc : Oracles) (s : MonState) (op : MOp) (rest : List MOp) :
    runOps oc s (op :: rest) = runOps oc (applyOp oc s op) rest := rfl

theorem applyOp_activate (oc : Oracles) (s : MonState) (p v : Nat) :
    applyOp oc s (MOp.activate p v) = (noteOn oc p v s).1 := rfl

theorem sustainOn_held (s : MonState) : (sustainOn s).held = s.held := rfl

theorem sustainOn_sustainHeld (s : MonState) :
    (sustainOn s).sustainHeld = true := rfl

theorem sustainOff_held (oc : Oracles) (s : MonState) :
    (sustainOff oc s).1.held =
      (s.held.filter (fun e => decide (e.2 = false))).map (fun e => (e.1, false)) := by
  unfold sustainOff
  dsimp only
  rw [analyse_held]

theorem sustainScene_held (oc : Oracles) :
    (sustainScene oc).held = [(60, false), (64, false), (67, false)] := by
  have h1 : (noteOn oc 60 100 MonState.start).1.held = [(60, false)] := by
    rw [noteOn_held_new oc 60 100 MonState.start (by decide) (by decide)]
    rfl
  have h2 : (noteOn oc 64 100 (noteOn oc 60 100 MonState.start).1).1.held =
      [(60, false), (64, false)] := by
    rw [noteOn_held_new oc 64 100 ((noteOn oc 60 100 MonState.start).1)
      (by rw [h1]; decide) (by rw [h1]; decide)]
    rw [h1]
    rfl
  have h3 : (noteOn oc 67 100 (noteOn oc 64 100 (noteOn oc 60 100
      MonState.start).1).1).1.held = [(60, false), (64, false), (67, false)] := by
    rw [noteOn_held_new oc 67 100 ((noteOn oc 64 100 (noteOn oc 60 100
      MonState.start).1).1) (by rw [h2]; decide) (by rw [h2]; decide)]
    rw [h2]
    rfl
  unfold sustainScene
  rw [runOps_cons, runOps_cons, runOps_cons, runOps_nil, applyOp_activate,
    applyOp_activate, applyOp_activate, sustainOn_held]
  exact h3

/-- C3: from an empty monitor — activate 60, 64, 67; sustain on; release 67:
the active count is still 3 and chord validity is untouched (the release is
only marked, no re-evaluation runs); a subsequent `sustainOff` drops the
marked pitch and the count falls to 2. -/
theorem c3_sustain_trace (oc : Oracles) :
    (noteOff oc 67 (sustainScene oc)).1.held.length = 3 ∧
      (noteOff oc 67 (sustainScene oc)).1.chordValid = (sustainScene oc).chordValid ∧
      (sustainOff oc (noteOff oc 67 (sustainScene oc)).1).1.held.length = 2 := by
  have hsus : (sustainScene oc).sustainHeld = true := sustainOn_sustainHeld _
  have h4 : (noteOff oc 67 (sustainScene oc)).1.held =
      markSustainedFirst 67 (sustainScene oc).held := by
    rw [noteOff, if_pos hsus]
  have hoffheld : (noteOff oc 67 (sustainScene oc)).1.held =
      [(60, false), (64, false), (67, true)] := by
    simp only [h4, sustainScene_held]
    decide
  have hchord : (noteOff oc 67 (sustainScene oc)).1.chordValid =
      (sustainScene oc).chordValid := by
    rw [noteOff, if_pos hsus]
  refine ⟨?_, hchord, ?_⟩
  · simp only [hoffheld]
    decide
  · simp only [sustainOff_held, hoffheld]
    decide

/-- C10: a pitch that sits in the active set with its sustained mark set (it
was released while the latch was on) is left untouched by a fresh activation
— the un-marking loop in `noteOn` is unreachable for pitches already in the
set — so the next `sustainOff` still removes it. -/
theorem c10_reactivation_keeps_sustained_mark (oc : Oracles) (s : MonState)
    (p v : Nat) (hnd : (s.held.map Prod.fst).Nodup) (hmem : (p, true) ∈ s.held) :
    (noteOn oc p v s).1 = s ∧
      p ∉ ((sustainOff oc (noteOn oc p v s).1).1.held.map Prod.fst) := by
  have hpm : p ∈ s.held.map Prod.fst := List.mem_map.mpr ⟨(p, true), hmem, rfl⟩
  have hid : (noteOn oc p v s).1 = s := by rw [noteOn, if_pos hpm]
  refine ⟨hid, ?_⟩
  rw [hid, sustainOff_held]
  intro hin
  rw [List.map_map] at hin
  have hin' : p ∈ (s.held.filter (fun e => decide (e.2 = false))).map Prod.fst := by
    simpa using hin
  rcases List.mem_map.mp hin' with ⟨e, hef, hep⟩
  have hes : e ∈ s.held := List.mem_of_mem_filter hef
  have heb : e.2 = false := by
    have := List.of_mem_filter hef
    simpa using this
  have hepair : e = (p, false) := by
    rcases e with ⟨e1, e2⟩
    simp only at hep heb
    rw [hep, heb]
  rw [hepair] at hes
  have hpw : s.held.Pairwise (fun a b => a.1 ≠ b.1) := by
    have hq := hnd
    rw [List.Nodup, List.pairwise_map] at hq
    exact hq
  have hsym : Symmetric (fun a b : Nat × Bool => a.1 ≠ b.1) :=
    fun a b hab => fun hq => hab hq.symm
  exact (hpw.forall hsym hmem hes (by simp)) rfl

/-- C10 witness: a monitor holding pitch 5 with its sustained mark set, under
an oracle pair that never recognises anything. -/
theorem c10_reactivation_keeps_sustained_mark_witness :
    (noteOn ⟨fun _ => none, fun _ => none⟩ 5 7
        ⟨[(5, true)], true, false, "", false, 0, 0⟩).1 =
      (⟨[(5, true)], true, false, "", false, 0, 0⟩ : MonState) ∧
      5 ∉ ((sustainOff ⟨fun _ => none, fun _ => none⟩
        (noteOn ⟨fun _ => none, fun _ => none⟩ 5 7
          ⟨[(5, true)], true, false, "", false, 0, 0⟩).1).1.held.map Prod.fst) :=
  c10_reactivation_keeps_sustained_mark ⟨fun _ => none, fun _ => none⟩
    ⟨[(5, true)], true, false, "", false, 0, 0⟩ 5 7 (by decide) (by decide)

theorem compute_root_direction (a b : GChord) :
    (compute a b).root_direction =
      (let diff0 : Int := ((b.rootSemi % 12 : Nat) : Int) - ((a.rootSemi % 12 : Nat) : Int)
       let diff1 : Int := if diff0 > 6 then diff0 - 12 else diff0
       if diff1 < -6 then diff1 + 12 else diff1) := rfl

theorem compute_root_distance (a b : GChord) :
    (compute a b).root_distance = (compute a b).root_direction.natAbs := rfl

theorem compute_transposition (a b : GChord) :
    (compute a b).transposition = transpositionIndex (pcMask a) (pcMask b) := rfl

theorem compute_voice_leading (a b : GChord) :
    (compute a b).voice_leading = computeVoiceLeading a b := rfl

theorem compute_transformation (a b : GChord) :
    (compute a b).transformation = detectNeo a b := rfl

/-- C8 counterexample: from a chord rooted at pitch class 6 to one rooted at
pitch class 0 the raw difference is `-6`, which both normalization steps leave
alone, so the root direction is `-6` — outside the claimed half-open interval
`(-6, +6]`. -/
theorem c8_direction_range_counterexample :
    (compute gbChord cChord).root_direction = -6 ∧
      ¬(-6 < (compute gbChord cChord).root_direction ∧
        (compute gbChord cChord).root_direction ≤ 6) := by
  decide

theorem root_direction_antisymm (a b : GChord) :
    (compute a b).root_direction = -(compute b a).root_direction := by
  have ha : a.rootSemi % 12 < 12 := Nat.mod_lt _ (by norm_num)
  have hb : b.rootSemi % 12 < 12 := Nat.mod_lt _ (by norm_num)
  rw [compute_root_direction, compute_root_direction]
  dsimp only
  split_ifs <;> omega

/-- C8 (amended): the root direction is the signed difference of the root
pitch classes shifted by ±12 into the closed interval `[-6, +6]` (a raw
difference of exactly `-6` stays `-6`, so the interval is closed on both
ends, not `(-6, +6]`); the root distance is its absolute value and is
symmetric in the two chords. -/
theorem c8_root_geometry (a b : GChord) :
    -6 ≤ (compute a b).root_direction ∧ (compute a b).root_direction ≤ 6 ∧
      ((compute a b).root_direction -
        (((b.rootSemi % 12 : Nat) : Int) - ((a.rootSemi % 12 : Nat) : Int))) % 12 = 0 ∧
      (compute a b).root_distance = (compute a b).root_direction.natAbs ∧
      (compute a b).root_distance = (compute b a).root_distance := by
  have ha : a.rootSemi % 12 < 12 := Nat.mod_lt _ (by norm_num)
  have hb : b.rootSemi % 12 < 12 := Nat.mod_lt _ (by norm_num)
  refine ⟨?_, ?_, ?_, compute_root_distance a b, ?_⟩
  · rw [compute_root_direction]
    dsimp only
    split_ifs <;> omega
  · rw [compute_root_direction]
    dsimp only
    split_ifs <;> omega
  · rw [compute_root_direction]
    dsimp only
    split_ifs <;> omega
  · rw [compute_root_distance, compute_root_distance, root_direction_antisymm,
      Int.natAbs_neg]

/-! ### C7: the transposition index -/

/-- `find?` over `List.range m` returns the least witness: it satisfies the
predicate, is below `m`, and everything smaller fails the predicate. -/
theorem find?_range_spec (p : Nat → Bool) :
    ∀ (m a : Nat), (List.range m).find? p = some a →
      p a = true ∧ a < m ∧ ∀ b, b < a → p b = false := by
  intro m
  induction m with
  | zero => intro a h; cases h
  | succ k ih =>
    intro a h
    rw [List.range_succ, List.find?_append] at h
    rcases hk : (List.range k).find? p with _ | a'
    · rw [hk] at h
      simp only [Option.none_or] at h
      have hpa : p k = true ∧ a = k := by
        rcases hq : p k with _ | _ <;> simp [List.find?, hq] at h
        · exact ⟨rfl, h.symm⟩
      rcases hpa with ⟨hpk, rfl⟩
      refine ⟨hpk, Nat.lt_succ_self _, ?_⟩
      intro b hb
      have := List.find?_eq_none.mp hk b (List.mem_range.mpr hb)
      rcases hq : p b with _ | _
      · rfl
      · exact absurd hq this
    · rw [hk] at h
      simp only [Option.or_some] at h
      rcases Option.some.inj h with rfl
      have := ih a' hk
      exact ⟨this.1, Nat.lt_succ_of_lt this.2.1, this.2.2⟩

/-- C7 counterexample: the diminished-seventh pitch-class set {0,3,6,9}
(mask 0x249) is invariant under rotation by 3, so the comparator's
transposition index from the chord to its 3-semitone rotation (the chord
itself) is the smaller witness 0, not 3. -/
theorem c7_symmetric_mask_counterexample :
    pcMask (⟨[0, 3, 6, 9], 0, "dim7"⟩ : GChord) = 0x249 ∧
      rotatePc 0x249 3 = 0x249 ∧
      (compute (⟨[0, 3, 6, 9], 0, "dim7"⟩ : GChord)
        (⟨[0, 3, 6, 9], 0, "dim7"⟩ : GChord)).transposition = 0 ∧
      (0 : Int) ≠ 3 := by
  refine ⟨by decide, by decide, ?_, by decide⟩
  rw [compute_transposition]
  decide

/-- C7 (amended): for a chord pair whose masks are related by an upward
rotation of `n` (0 ≤ n < 12), the comparator's transposition index is never
the `-1` sentinel, is at most `n`, is the least rotation amount mapping the
first mask to the second, and equals `n` exactly whenever no smaller rotation
already matches (in particular for every mask without that rotational
symmetry). -/
theorem c7_transposition_least (a b : GChord) (n : Nat) (hn : n < 12)
    (hb : pcMask b = rotatePc (pcMask a) n) :
    0 ≤ (compute a b).transposition ∧
      (compute a b).transposition ≤ (n : Int) ∧
      (∀ k : Nat, k < 12 → rotatePc (pcMask a) k = pcMask b →
        (compute a b).transposition ≤ (k : Int)) ∧
      ((∀ k : Nat, k < n → rotatePc (pcMask a) k ≠ pcMask b) →
        (compute a b).transposition = (n : Int)) := by
  rcases hf : (List.range 12).find? (fun k => rotatePc (pcMask a) k == pcMask b)
      with _ | k0
  · exfalso
    have := List.find?_eq_none.mp hf n (List.mem_range.mpr hn)
    rw [hb] at this
    simp at this
  · have hval : (compute a b).transposition = (k0 : Int) := by
      rw [compute_transposition]
      unfold transpositionIndex
      rw [hf]
    have hspec := find?_range_spec _ 12 k0 hf
    have hk0 : rotatePc (pcMask a) k0 = pcMask b := by
      have := hspec.1
      simpa using this
    have hle : k0 ≤ n := by
      by_contra hgt
      push_neg at hgt
      have := hspec.2.2 n hgt
      rw [hb] at this
      simp at this
    rw [hval]
    refine ⟨by positivity, by exact_mod_cast hle, ?_, ?_⟩
    · intro k hk12 hkrot
      by_contra hlt
      push_neg at hlt
      have hklt : k < k0 := by exact_mod_cast hlt
      have := hspec.2.2 k hklt
      rw [hkrot] at this
      simp at this
    · intro hnone
      have hnlt : ¬ k0 < n := by
        intro hlt
        exact hnone k0 hlt hk0
      have heq : k0 = n := by omega
      exact_mod_cast congrArg (Nat.cast : Nat → Int) heq

/-! ### C5: voice leading -/

theorem foldl_min_le_init (l : List Int) : ∀ i : Int, l.foldl min i ≤ i := by
  induction l with
  | nil => intro i; exact le_refl i
  | cons x t ih => intro i; exact le_trans (ih (min i x)) (min_le_left i x)

theorem foldl_min_le_mem (l : List Int) :
    ∀ (i x : Int), x ∈ l → l.foldl min i ≤ x := by
  induction l with
  | nil => intro i x hx; cases hx
  | cons y t ih =>
    intro i x hx
    rcases List.mem_cons.mp hx with rfl | hx
    · exact le_trans (foldl_min_le_init t (min i x)) (min_le_right i x)
    · exact ih (min i y) x hx

theorem foldl_min_mem_or_init (l : List Int) :
    ∀ i : Int, l.foldl min i = i ∨ l.foldl min i ∈ l := by
  induction l with
  | nil => intro i; exact Or.inl rfl
  | cons x t ih =>
    intro i
    rcases ih (min i x) with h | h
    · rcases min_choice i x with hm | hm
      · exact Or.inl (by rw [List.foldl_cons, h, hm])
      · refine Or.inr ?_
        rw [List.foldl_cons, h, hm]
        exact List.mem_cons_self x t
    · exact Or.inr (List.mem_cons_of_mem x h)

theorem chromaticDist_le_six (a b : Nat) : chromaticDist a b ≤ 6 := by
  unfold chromaticDist
  dsimp only
  split <;> omega

theorem chromaticDist_self (a : Nat) : chromaticDist a a = 0 := by
  unfold chromaticDist
  dsimp only
  split <;> omega

theorem chromaticDist_eq_zero (a b : Nat) (ha : a < 12) (hb : b < 12) :
    chromaticDist a b = 0 ↔ a = b := by
  unfold chromaticDist
  dsimp only
  split <;> omega

theorem vlSum_cons (x y : Nat) (ta tb : List Nat) :
    vlSum (x :: ta) (y :: tb) = chromaticDist x y + vlSum ta tb := by
  unfold vlSum
  rw [List.zip_cons_cons, List.map_cons, List.sum_cons]

theorem vlSum_le (pa : List Nat) : ∀ pb : List Nat, vlSum pa pb ≤ 6 * pa.length := by
  induction pa with
  | nil => intro pb; simp [vlSum]
  | cons x ta ih =>
    intro pb
    cases pb with
    | nil => simp [vlSum]
    | cons y tb =>
      rw [vlSum_cons, List.length_cons]
      have h1 := chromaticDist_le_six x y
      have h2 := ih tb
      omega

theorem vlSum_self (l : List Nat) : vlSum l l = 0 := by
  induction l with
  | nil => rfl
  | cons x t ih => rw [vlSum_cons, ih, chromaticDist_self]

theorem vlSum_eq_zero (pa : List Nat) :
    ∀ pb : List Nat, pa.length = pb.length →
      (∀ x ∈ pa, x < 12) → (∀ x ∈ pb, x < 12) →
      (vlSum pa pb = 0 ↔ pa = pb) := by
  induction pa with
  | nil =>
    intro pb hlen _ _
    cases pb with
    | nil => simp [vlSum]
    | cons y tb => simp at hlen
  | cons x ta ih =>
    intro pb hlen ha hbb
    cases pb with
    | nil => simp at hlen
    | cons y tb =>
      rw [vlSum_cons]
      have hx : x < 12 := ha x (List.mem_cons_self x ta)
      have hy : y < 12 := hbb y (List.mem_cons_self y tb)
      have hiv := ih tb (by simpa using hlen)
        (fun z hz => ha z (List.mem_cons_of_mem x hz))
        (fun z hz => hbb z (List.mem_cons_of_mem y hz))
      constructor
      · intro h
        have hcd : chromaticDist x y = 0 := by omega
        have hts : vlSum ta tb = 0 := by omega
        rw [(chromaticDist_eq_zero x y hx hy).mp hcd, hiv.mp hts]
      · intro h
        injection h with h1 h2
        subst h1
        subst h2
        rw [chromaticDist_self, vlSum_self]

theorem pcs_lt (c : GChord) : ∀ x ∈ c.pcs, x < 12 := by
  intro x hx
  rcases List.mem_map.mp hx with ⟨n, _, rfl⟩
  exact Nat.mod_lt _ (by norm_num)

theorem pcs_length (c : GChord) : c.pcs.length = c.size := by
  simp [GChord.pcs, GChord.size]

theorem mem_perms_sorted_iff (pb l : List Nat) :
    l ∈ (List.insertionSort (fun x y => x ≤ y) pb).permutations ↔ l.Perm pb := by
  rw [List.mem_permutations]
  constructor
  · intro h
    exact h.trans (List.perm_insertionSort _ pb)
  · intro h
    exact h.trans (List.perm_insertionSort _ pb).symm

/-- C5: for chords of equal nonzero size (at most 21 notes, so that no
pairing cost can reach the loop's 127 start value — the real library caps
chords far below that), the comparator's voice-leading value is the least
element of the set of pairing costs over all bijective pairings (all
reorderings of B's pitch-class list), hence exactly the minimal total
shortest-arc movement; it is nonnegative, and zero exactly when the two
pitch-class multisets agree; chords of different sizes get the sentinel -1. -/
theorem c5_voice_leading (a b : GChord) (hcap : a.size ≤ 21) :
    (a.size = b.size → a.size ≠ 0 →
      IsLeast {c : Int | ∃ l : List Nat, l.Perm b.pcs ∧ c = (vlSum a.pcs l : Int)}
          (compute a b).voice_leading ∧
        0 ≤ (compute a b).voice_leading ∧
        ((compute a b).voice_leading = 0 ↔ a.pcs.Perm b.pcs)) ∧
    (a.size ≠ b.size → (compute a b).voice_leading = -1) := by
  rw [compute_voice_leading]
  constructor
  · intro hsz hnz
    have hvl : computeVoiceLeading a b =
        ((List.insertionSort (fun x y => x ≤ y) b.pcs).permutations.map
          (fun l => (vlSum a.pcs l : Int))).foldl min 127 := by
      unfold computeVoiceLeading
      rw [if_neg]
      push_neg
      exact ⟨hsz, hnz⟩
    rw [hvl]
    have hself : List.insertionSort (fun x y => x ≤ y) b.pcs ∈
        (List.insertionSort (fun x y => x ≤ y) b.pcs).permutations :=
      List.mem_permutations.mpr (List.Perm.refl _)
    have hcost_le : ∀ l : List Nat, (vlSum a.pcs l : Int) ≤ 126 := by
      intro l
      have h1 := vlSum_le a.pcs l
      rw [pcs_length] at h1
      have h2 : vlSum a.pcs l ≤ 126 := by omega
      exact_mod_cast h2
    have hmemS : ((List.insertionSort (fun x y => x ≤ y) b.pcs).permutations.map
          (fun l => (vlSum a.pcs l : Int))).foldl min 127 ∈
        {c : Int | ∃ l : List Nat, l.Perm b.pcs ∧ c = (vlSum a.pcs l : Int)} := by
      rcases foldl_min_mem_or_init
          ((List.insertionSort (fun x y => x ≤ y) b.pcs).permutations.map
            (fun l => (vlSum a.pcs l : Int))) 127 with h127 | hmem
      · exfalso
        have hc := List.mem_map_of_mem (fun l => (vlSum a.pcs l : Int)) hself
        have hle2 := foldl_min_le_mem _ 127 _ hc
        rw [h127] at hle2
        dsimp only at hle2
        have := hcost_le (List.insertionSort (fun x y => x ≤ y) b.pcs)
        omega
      · rcases List.mem_map.mp hmem with ⟨l, hlmem, hceq⟩
        exact ⟨l, (mem_perms_sorted_iff b.pcs l).mp hlmem, hceq.symm⟩
    have hlb : ∀ c ∈ {c : Int | ∃ l : List Nat, l.Perm b.pcs ∧ c = (vlSum a.pcs l : Int)},
        ((List.insertionSort (fun x y => x ≤ y) b.pcs).permutations.map
          (fun l => (vlSum a.pcs l : Int))).foldl min 127 ≤ c := by
      rintro c ⟨l, hlp, rfl⟩
      exact foldl_min_le_mem _ 127 _
        (List.mem_map_of_mem _ ((mem_perms_sorted_iff b.pcs l).mpr hlp))
    have hnonneg : 0 ≤ ((List.insertionSort (fun x y => x ≤ y) b.pcs).permutations.map
        (fun l => (vlSum a.pcs l : Int))).foldl min 127 := by
      rcases hmemS with ⟨l, _, heq⟩
      rw [heq]
      exact_mod_cast Nat.zero_le _
    refine ⟨⟨hmemS, hlb⟩, hnonneg, ?_, ?_⟩
    · intro h0
      rcases hmemS with ⟨l, hlp, heq⟩
      rw [h0] at heq
      have hz : vlSum a.pcs l = 0 := by exact_mod_cast heq.symm
      have hlen : a.pcs.length = l.length := by
        rw [pcs_length, hsz, ← pcs_length b]
        exact (hlp.length_eq).symm
      have hlt : ∀ x ∈ l, x < 12 := fun x hx => pcs_lt b x (hlp.mem_iff.mp hx)
      have := (vlSum_eq_zero a.pcs l hlen (pcs_lt a) hlt).mp hz
      rw [this]
      exact hlp
    · intro hperm
      have hle0 : ((List.insertionSort (fun x y => x ≤ y) b.pcs).permutations.map
          (fun l => (vlSum a.pcs l : Int))).foldl min 127 ≤ 0 := by
        have h0 : ((vlSum a.pcs a.pcs : Nat) : Int) = 0 := by
          rw [vlSum_self]
          rfl
        have := hlb ((vlSum a.pcs a.pcs : Nat) : Int) ⟨a.pcs, hperm, rfl⟩
        omega
      omega
  · intro hne
    unfold computeVoiceLeading
    rw [if_pos (Or.inl hne)]

/-- C5 witness: the voice-leading contract at C major against A minor. -/
theorem c5_voice_leading_witness :
    (cChord.size = amChord.size → cChord.size ≠ 0 →
      IsLeast {c : Int | ∃ l : List Nat, l.Perm amChord.pcs ∧
            c = (vlSum cChord.pcs l : Int)}
          (compute cChord amChord).voice_leading ∧
        0 ≤ (compute cChord amChord).voice_leading ∧
        ((compute cChord amChord).voice_leading = 0 ↔
          cChord.pcs.Perm amChord.pcs)) ∧
    (cChord.size ≠ amChord.size → (compute cChord amChord).voice_leading = -1) :=
  c5_voice_leading cChord amChord (by decide)

/-- C6: the comparator's transformation tag is exactly the spec's procedure —
apply P/L/R on `(root, isMajor)` as specified, try the 3 single steps and
then the 6 two-step compositions in the order RP, RL, LP, LR, PR, PL, first
match wins, "none" when none of the 9 matches — and a pair with a non-triad
member tags "none". -/
theorem c6_transformation_tag (a b : GChord) :
    (compute a b).transformation = specTransformationTag a b ∧
      (isTriad a = none ∨ isTriad b = none →
        (compute a b).transformation = Neo.NONE) := by
  rw [compute_transformation]
  constructor
  · unfold detectNeo specTransformationTag
    rcases isTriad a with _ | aM <;> rcases isTriad b with _ | bM <;> try rfl
    dsimp only
    by_cases h1 : applyNeoStep ((a.rootSemi % 12 : Nat), aM) Neo.P = ((b.rootSemi % 12 : Nat), bM)
    · rw [List.find?_cons_of_pos (p := fun op => decide (applyNeoStep ((a.rootSemi % 12 : Nat), aM) op = ((b.rootSemi % 12 : Nat), bM))) (a := Neo.P) _
        (by exact decide_eq_true h1),
        if_pos (show (a.rootSemi % 12, !aM) = (b.rootSemi % 12, bM) from h1)]
    · rw [List.find?_cons_of_neg (p := fun op => decide (applyNeoStep ((a.rootSemi % 12 : Nat), aM) op = ((b.rootSemi % 12 : Nat), bM))) (a := Neo.P) _
        (by exact fun hq => h1 (of_decide_eq_true hq)),
        if_neg (show ¬((a.rootSemi % 12, !aM) = (b.rootSemi % 12, bM)) from h1)]
      by_cases h2 : applyNeoStep ((a.rootSemi % 12 : Nat), aM) Neo.L = ((b.rootSemi % 12 : Nat), bM)
      · rw [List.find?_cons_of_pos (p := fun op => decide (applyNeoStep ((a.rootSemi % 12 : Nat), aM) op = ((b.rootSemi % 12 : Nat), bM))) (a := Neo.L) _
          (by exact decide_eq_true h2),
          if_pos (show (if aM = true then ((a.rootSemi % 12 + 4) % 12, false) else ((a.rootSemi % 12 + 8) % 12, true)) = (b.rootSemi % 12, bM) from h2)]
      · rw [List.find?_cons_of_neg (p := fun op => decide (applyNeoStep ((a.rootSemi % 12 : Nat), aM) op = ((b.rootSemi % 12 : Nat), bM))) (a := Neo.L) _
          (by exact fun hq => h2 (of_decide_eq_true hq)),
          if_neg (show ¬((if aM = true then ((a.rootSemi % 12 + 4) % 12, false) else ((a.rootSemi % 12 + 8) % 12, true)) = (b.rootSemi % 12, bM)) from h2)]
        by_cases h3 : applyNeoStep ((a.rootSemi % 12 : Nat), aM) Neo.R = ((b.rootSemi % 12 : Nat), bM)
        · rw [List.find?_cons_of_pos (p := fun op => decide (applyNeoStep ((a.rootSemi % 12 : Nat), aM) op = ((b.rootSemi % 12 : Nat), bM))) (a := Neo.R) _
            (by exact decide_eq_true h3),
            if_pos (show (if aM = true then ((a.rootSemi % 12 + 9) % 12, false) else ((a.rootSemi % 12 + 3) % 12, true)) = (b.rootSemi % 12, bM) from h3)]
        · rw [List.find?_cons_of_neg (p := fun op => decide (applyNeoStep ((a.rootSemi % 12 : Nat), aM) op = ((b.rootSemi % 12 : Nat), bM))) (a := Neo.R) _
            (by exact fun hq => h3 (of_decide_eq_true hq)),
            if_neg (show ¬((if aM = true then ((a.rootSemi % 12 + 9) % 12, false) else ((a.rootSemi % 12 + 3) % 12, true)) = (b.rootSemi % 12, bM)) from h3)]
          rw [List.find?_nil]
          by_cases h4 : applyNeoStep (applyNeoStep ((a.rootSemi % 12 : Nat), aM) Neo.R) Neo.P = ((b.rootSemi % 12 : Nat), bM)
          · rw [List.find?_cons_of_pos (p := fun t => decide (applyNeoStep (applyNeoStep ((a.rootSemi % 12 : Nat), aM) t.1) t.2.1 = ((b.rootSemi % 12 : Nat), bM))) (a := (Neo.R, Neo.P, Neo.RP)) _
              (by exact decide_eq_true h4),
              if_pos (show ((if aM = true then ((a.rootSemi % 12 + 9) % 12, false) else ((a.rootSemi % 12 + 3) % 12, true)).1, !(if aM = true then ((a.rootSemi % 12 + 9) % 12, false) else ((a.rootSemi % 12 + 3) % 12, true)).2) = (b.rootSemi % 12, bM) from h4)]
          · rw [List.find?_cons_of_neg (p := fun t => decide (applyNeoStep (applyNeoStep ((a.rootSemi % 12 : Nat), aM) t.1) t.2.1 = ((b.rootSemi % 12 : Nat), bM))) (a := (Neo.R, Neo.P, Neo.RP)) _
              (by exact fun hq => h4 (of_decide_eq_true hq)),
              if_neg (show ¬(((if aM = true then ((a.rootSemi % 12 + 9) % 12, false) else ((a.rootSemi % 12 + 3) % 12, true)).1, !(if aM = true then ((a.rootSemi % 12 + 9) % 12, false) else ((a.rootSemi % 12 + 3) % 12, true)).2) = (b.rootSemi % 12, bM)) from h4)]
            by_cases h5 : applyNeoStep (applyNeoStep ((a.rootSemi % 12 : Nat), aM) Neo.R) Neo.L = ((b.rootSemi % 12 : Nat), bM)
            · rw [List.find?_cons_of_pos (p := fun t => decide (applyNeoStep (applyNeoStep ((a.rootSemi % 12 : Nat), aM) t.1) t.2.1 = ((b.rootSemi % 12 : Nat), bM))) (a := (Neo.R, Neo.L, Neo.RL)) _
                (by exact decide_eq_true h5),
                if_pos (show (if (if aM = true then ((a.rootSemi % 12 + 9) % 12, false) else ((a.rootSemi % 12 + 3) % 12, true)).2 = true then (((if aM = true then ((a.rootSemi % 12 + 9) % 12, false) else ((a.rootSemi % 12 + 3) % 12, true)).1 + 4) % 12, false) else (((if aM = true then ((a.rootSemi % 12 + 9) % 12, false) else ((a.rootSemi % 12 + 3) % 12, true)).1 + 8) % 12, true)) = (b.rootSemi % 12, bM) from h5)]
            · rw [List.find?_cons_of_neg (p := fun t => decide (applyNeoStep (applyNeoStep ((a.rootSemi % 12 : Nat), aM) t.1) t.2.1 = ((b.rootSemi % 12 : Nat), bM))) (a := (Neo.R, Neo.L, Neo.RL)) _
                (by exact fun hq => h5 (of_decide_eq_true hq)),
                if_neg (show ¬((if (if aM = true then ((a.rootSemi % 12 + 9) % 12, false) else ((a.rootSemi % 12 + 3) % 12, true)).2 = true then (((if aM = true then ((a.rootSemi % 12 + 9) % 12, false) else ((a.rootSemi % 12 + 3) % 12, true)).1 + 4) % 12, false) else (((if aM = true then ((a.rootSemi % 12 + 9) % 12, false) else ((a.rootSemi % 12 + 3) % 12, true)).1 + 8) % 12, true)) = (b.rootSemi % 12, bM)) from h5)]
              by_cases h6 : applyNeoStep (applyNeoStep ((a.rootSemi % 12 : Nat), aM) Neo.L) Neo.P = ((b.rootSemi % 12 : Nat), bM)
              · rw [List.find?_cons_of_pos (p := fun t => decide (applyNeoStep (applyNeoStep ((a.rootSemi % 12 : Nat), aM) t.1) t.2.1 = ((b.rootSemi % 12 : Nat), bM))) (a := (Neo.L, Neo.P, Neo.LP)) _
                  (by exact decide_eq_true h6),
                  if_pos (show ((if aM = true then ((a.rootSemi % 12 + 4) % 12, false) else ((a.rootSemi % 12 + 8) % 12, true)).1, !(if aM = true then ((a.rootSemi % 12 + 4) % 12, false) else ((a.rootSemi % 12 + 8) % 12, true)).2) = (b.rootSemi % 12, bM) from h6)]
              · rw [List.find?_cons_of_neg (p := fun t => decide (applyNeoStep (applyNeoStep ((a.rootSemi % 12 : Nat), aM) t.1) t.2.1 = ((b.rootSemi % 12 : Nat), bM))) (a := (Neo.L, Neo.P, Neo.LP)) _
                  (by exact fun hq => h6 (of_decide_eq_true hq)),
                  if_neg (show ¬(((if aM = true then ((a.rootSemi % 12 + 4) % 12, false) else ((a.rootSemi % 12 + 8) % 12, true)).1, !(if aM = true then ((a.rootSemi % 12 + 4) % 12, false) else ((a.rootSemi % 12 + 8) % 12, true)).2) = (b.rootSemi % 12, bM)) from h6)]
                by_cases h7 : applyNeoStep (applyNeoStep ((a.rootSemi % 12 : Nat), aM) Neo.L) Neo.R = ((b.rootSemi % 12 : Nat), bM)
                · rw [List.find?_cons_of_pos (p := fun t => decide (applyNeoStep (applyNeoStep ((a.rootSemi % 12 : Nat), aM) t.1) t.2.1 = ((b.rootSemi % 12 : Nat), bM))) (a := (Neo.L, Neo.R, Neo.LR)) _
                    (by exact decide_eq_true h7),
                    if_pos (show (if (if aM = true then ((a.rootSemi % 12 + 4) % 12, false) else ((a.rootSemi % 12 + 8) % 12, true)).2 = true then (((if aM = true then ((a.rootSemi % 12 + 4) % 12, false) else ((a.rootSemi % 12 + 8) % 12, true)).1 + 9) % 12, false) else (((if aM = true then ((a.rootSemi % 12 + 4) % 12, false) else ((a.rootSemi % 12 + 8) % 12, true)).1 + 3) % 12, true)) = (b.rootSemi % 12, bM) from h7)]
                · rw [List.find?_cons_of_neg (p := fun t => decide (applyNeoStep (applyNeoStep ((a.rootSemi % 12 : Nat), aM) t.1) t.2.1 = ((b.rootSemi % 12 : Nat), bM))) (a := (Neo.L, Neo.R, Neo.LR)) _
                    (by exact fun hq => h7 (of_decide_eq_true hq)),
                    if_neg (show ¬((if (if aM = true then ((a.rootSemi % 12 + 4) % 12, false) else ((a.rootSemi % 12 + 8) % 12, true)).2 = true then (((if aM = true then ((a.rootSemi % 12 + 4) % 12, false) else ((a.rootSemi % 12 + 8) % 12, true)).1 + 9) % 12, false) else (((if aM = true then ((a.rootSemi % 12 + 4) % 12, false) else ((a.rootSemi % 12 + 8) % 12, true)).1 + 3) % 12, true)) = (b.rootSemi % 12, bM)) from h7)]
                  by_cases h8 : applyNeoStep (applyNeoStep ((a.rootSemi % 12 : Nat), aM) Neo.P) Neo.R = ((b.rootSemi % 12 : Nat), bM)
                  · rw [List.find?_cons_of_pos (p := fun t => decide (applyNeoStep (applyNeoStep ((a.rootSemi % 12 : Nat), aM) t.1) t.2.1 = ((b.rootSemi % 12 : Nat), bM))) (a := (Neo.P, Neo.R, Neo.PR)) _
                      (by exact decide_eq_true h8),
                      if_pos (show (if (!aM) = true then ((a.rootSemi % 12 + 9) % 12, false) else ((a.rootSemi % 12 + 3) % 12, true)) = (b.rootSemi % 12, bM) from h8)]
                  · rw [List.find?_cons_of_neg (p := fun t => decide (applyNeoStep (applyNeoStep ((a.rootSemi % 12 : Nat), aM) t.1) t.2.1 = ((b.rootSemi % 12 : Nat), bM))) (a := (Neo.P, Neo.R, Neo.PR)) _
                      (by exact fun hq => h8 (of_decide_eq_true hq)),
                      if_neg (show ¬((if (!aM) = true then ((a.rootSemi % 12 + 9) % 12, false) else ((a.rootSemi % 12 + 3) % 12, true)) = (b.rootSemi % 12, bM)) from h8)]
                    by_cases h9 : applyNeoStep (applyNeoStep ((a.rootSemi % 12 : Nat), aM) Neo.P) Neo.L = ((b.rootSemi % 12 : Nat), bM)
                    · rw [List.find?_cons_of_pos (p := fun t => decide (applyNeoStep (applyNeoStep ((a.rootSemi % 12 : Nat), aM) t.1) t.2.1 = ((b.rootSemi % 12 : Nat), bM))) (a := (Neo.P, Neo.L, Neo.PL)) _
                        (by exact decide_eq_true h9),
                        if_pos (show (if (!aM) = true then ((a.rootSemi % 12 + 4) % 12, false) else ((a.rootSemi % 12 + 8) % 12, true)) = (b.rootSemi % 12, bM) from h9)]
                    · rw [List.find?_cons_of_neg (p := fun t => decide (applyNeoStep (applyNeoStep ((a.rootSemi % 12 : Nat), aM) t.1) t.2.1 = ((b.rootSemi % 12 : Nat), bM))) (a := (Neo.P, Neo.L, Neo.PL)) _
                        (by exact fun hq => h9 (of_decide_eq_true hq)),
                        if_neg (show ¬((if (!aM) = true then ((a.rootSemi % 12 + 4) % 12, false) else ((a.rootSemi % 12 + 8) % 12, true)) = (b.rootSemi % 12, bM)) from h9)]
                      rw [List.find?_nil]
  · intro h
    unfold detectNeo
    rcases h with h | h
    · rw [h]
    · rcases hq : isTriad a with _ | aM
      · rfl
      · rw [h]

/-- C7 witness: the amended theorem at the C-major mask rotated by 2. -/
theorem c7_transposition_least_witness :
    0 ≤ (compute cChord (⟨[2, 6, 9], 2, "M"⟩ : GChord)).transposition ∧
      (compute cChord (⟨[2, 6, 9], 2, "M"⟩ : GChord)).transposition ≤ (2 : Int) ∧
      (∀ k : Nat, k < 12 →
        rotatePc (pcMask cChord) k = pcMask (⟨[2, 6, 9], 2, "M"⟩ : GChord) →
        (compute cChord (⟨[2, 6, 9], 2, "M"⟩ : GChord)).transposition ≤ (k : Int)) ∧
      ((∀ k : Nat, k < 2 →
          rotatePc (pcMask cChord) k ≠ pcMask (⟨[2, 6, 9], 2, "M"⟩ : GChord)) →
        (compute cChord (⟨[2, 6, 9], 2, "M"⟩ : GChord)).transposition = (2 : Int)) :=
  c7_transposition_least cChord ⟨[2, 6, 9], 2, "M"⟩ 2 (by decide) (by decide)

end Gingoduino
